import Mathlib

/-!
Verification development for the PersonaAI repository (`app.py`).

The Python source is shallowly embedded: strings are Lean `String`s
(lists of characters, matching Python's per-character semantics for
slicing and length), Python `None`/non-string dictionary fields are an
explicit `PyField` type, the filesystem and the OpenAI completion
endpoint are explicit parameters, and every function is total.  A
handler additionally returns the list of completion requests it issued,
so statements about the number of outbound gateway calls are expressible.
-/

namespace PersonaAI

set_option maxRecDepth 8000

/-- Python `str.strip()` whitespace class (the ASCII part, which is what
the source ever feeds it). -/
def pyWs (c : Char) : Bool :=
  c == ' ' || c == '\t' || c == '\n' || c == '\r' || c == '\x0b' || c == '\x0c'

/-- Remove trailing whitespace characters (the right half of `str.strip()`). -/
def stripEnd (l : List Char) : List Char :=
  (l.reverse.dropWhile pyWs).reverse

/-- Python `str.strip()` on a character list: drop leading and trailing
whitespace. -/
def pyStrip (l : List Char) : List Char :=
  stripEnd (l.dropWhile pyWs)

/-- Python `s.strip()` on strings. -/
def pyStripS (s : String) : String :=
  ⟨pyStrip s.data⟩

/-- Python slicing `s[:n]` (a prefix of at most `n` characters). -/
def pyTake (n : Nat) (s : String) : String :=
  ⟨s.data.take n⟩

/-- `leadsWith n h` is true when `n` is a prefix of `h`. -/
def leadsWith : List Char → List Char → Bool
  | [], _ => true
  | _ :: _, [] => false
  | a :: as, b :: bs => a == b && leadsWith as bs

/-- `containsSub n h` is true when `n` occurs contiguously inside `h`
(Python's `n in h` on strings). -/
def containsSub : List Char → List Char → Bool
  | n, [] => n.isEmpty
  | n, c :: t => leadsWith n (c :: t) || containsSub n t

/-- Index of the last occurrence of `c` (Python `str.rfind`), `none` when
absent. -/
def lastIdxOf (c : Char) : List Char → Option Nat
  | [] => none
  | x :: xs =>
    match lastIdxOf c xs with
    | some i => some (i + 1)
    | none => if x == c then some 0 else none

/-- `os.path.splitext(p)[1]`: the extension starts at the last dot that
comes after the last path separator, provided the basename has at least
one non-dot character before that dot. -/
def splitextExt (p : List Char) : List Char :=
  match lastIdxOf '.' p with
  | none => []
  | some di =>
    let si : Nat := match lastIdxOf '/' p with | some j => j + 1 | none => 0
    if si ≤ di then
      if ((p.drop si).take (di - si)).any (fun c => c != '.') then p.drop di else []
    else []

/-- `os.path.splitext(file_path)[1].lower()` as used by `file_to_text`. -/
def extOf (p : String) : String :=
  ⟨(splitextExt p.data).map Char.toLower⟩

/-- Run-collapsing pass of `clean_text`: `pending` counts the newlines of
the run currently being read; every maximal run of `k` newlines is
emitted as `min k 2` newlines, which is exactly
`re.sub(r"\x7bn3,\x7d", two newlines, text)` restricted to the newline
character. -/
def collapseGo : Nat → List Char → List Char
  | pending, [] => List.replicate (min pending 2) '\n'
  | pending, c :: cs =>
    if c == '\n' then collapseGo (pending + 1) cs
    else List.replicate (min pending 2) '\n' ++ c :: collapseGo 0 cs

/-- `clean_text` from `app.py`: strip surrounding whitespace, then
collapse every run of three or more newlines to exactly two. -/
def clean_text (s : String) : String :=
  ⟨collapseGo 0 (pyStrip s.data)⟩

/-- `hasTripleNL l` is true when `l` contains three consecutive newline
characters. -/
def hasTripleNL : List Char → Bool
  | a :: b :: c :: t => (a == '\n' && b == '\n' && c == '\n') || hasTripleNL (b :: c :: t)
  | _ => false

/-- A dictionary field value as seen by `m.get(...)`: a string, or
anything else (a non-string value or an absent key, which the source
treats identically). -/
inductive PyField
  | str (s : String)
  | nonStr
deriving DecidableEq

/-- A raw chat-history entry handed in by the UI: either not a dict at
all, or a dict with its `role` and `content` fields. -/
inductive RawEntry
  | notDict
  | mk (role : PyField) (content : PyField)
deriving DecidableEq

/-- A role/content dictionary, used both for normalized chat turns and
for the messages sent to the completion endpoint (the source uses plain
dicts for both). -/
structure Turn where
  role : String
  content : String
deriving DecidableEq

/-- A normalized turn viewed again as a raw history entry (a turn is
just a dict in the source). -/
def turnToRaw (t : Turn) : RawEntry :=
  RawEntry.mk (PyField.str t.role) (PyField.str t.content)

/-- Failure of the completion endpoint (auth, rate limit, network, ...):
`client.chat.completions.create` raising. -/
structure ProviderError where
  msg : String
deriving DecidableEq

/-- The completion gateway: given the ordered message sequence, return
the reply text (`completion.choices[0].message.content`) or fail.  The
fixed generation parameters (model name, temperature, max_tokens) do not
affect any contract proved here and are left implicit. -/
abbrev Gw := List Turn → Except ProviderError String

/-- Outcome of the three read/parse operations `file_to_text` may
attempt at the uploaded path; `Except.error ()` means the operation
raises. -/
structure FS where
  readText : Except Unit String
  readDocx : Except Unit (List String)
  readPdf : Except Unit (List (Option String))

/-- An uploaded file: the path string handed over by the UI plus the
behaviour of the filesystem at that path. -/
structure Upload where
  path : String
  fs : FS

/-- No upload (`file_path` empty/None); the filesystem behaviour is
irrelevant and set to always raise. -/
def noUpload : Upload :=
  ⟨"", ⟨Except.error (), Except.error (), Except.error ()⟩⟩

/-- `SYSTEM_PROMPT` from `app.py` (the chat persona instructions). -/
def SYSTEM_PROMPT : String :=
  "\nYou are PersonaAI Coach — \"Your Identity. Your Brand.\"\nYou help professionals elevate career identity, personal brand, and website presence.\n\nRules:\n- Ask focused, friendly questions about role, achievements, goals.\n- Use uploaded resume/profile as context but do not repeat it verbatim.\n- Give actionable suggestions (bullets ok).\n- Avoid inventing credentials/employers/dates.\n"

/-- `WEBSITE_SYSTEM_PROMPT` from `app.py` (the website generator
instructions). -/
def WEBSITE_SYSTEM_PROMPT : String :=
  "\nYou are PersonaAI Website Generator.\n\nGoal:\n- Use chat history + optional resume/profile text\n- Output a COMPLETE single-file professional personal website as HTML with embedded CSS\n- Clean, modern, responsive, professional\n\nSections:\n- Hero (Name, Title, Tagline)\n- About\n- Experience / Projects highlights\n- Skills\n- Contact\n\nRules:\n- Return ONLY HTML starting with <!DOCTYPE html> and ending with </html>\n- No external CSS frameworks\n- Do NOT invent employers/dates/awards not present in provided content.\n"

/-- `os.path.join(OUTPUT_FOLDER, \"index.html\")`. -/
def INDEX_HTML_PATH : String := "generated_sites/index.html"

/-- `file_to_text` from `app.py`: dispatch on the lowercased extension;
unsupported extensions, an empty path and any exception during
extraction all yield the empty string. -/
def file_to_text (u : Upload) : String :=
  if u.path == "" then ""
  else
    let extn := extOf u.path
    if extn == ".txt" || extn == ".md" then
      match u.fs.readText with
      | Except.ok raw => clean_text raw
      | Except.error _ => ""
    else if extn == ".docx" then
      match u.fs.readDocx with
      | Except.ok paras =>
        clean_text (String.intercalate "\n" (paras.filter (fun p => p != "" && pyStripS p != "")))
      | Except.error _ => ""
    else if extn == ".pdf" then
      match u.fs.readPdf with
      | Except.ok pages =>
        clean_text (String.intercalate "\n" (pages.map (fun o => o.getD "")))
      | Except.error _ => ""
    else ""

/-- `normalize_history` from `app.py`: keep only dict entries with a
string role equal to `user` or `assistant` and a string content that is
non-empty after stripping; keep them in order, with stripped content. -/
def normalize_history : List RawEntry → List Turn
  | [] => []
  | RawEntry.notDict :: rest => normalize_history rest
  | RawEntry.mk (PyField.str rs) (PyField.str cs) :: rest =>
    if (rs == "user" || rs == "assistant") && (pyStripS cs != "") then
      ⟨rs, pyStripS cs⟩ :: normalize_history rest
    else normalize_history rest
  | RawEntry.mk _ _ :: rest => normalize_history rest

/-- The spec's description of the per-entry keep/drop decision of the
History Normalizer: keep an entry only if it is a structured record
whose `role` equals `user` or `assistant` and whose `content` is text
that is non-empty after trimming. -/
def keptTurn : RawEntry → Option Turn
  | RawEntry.mk (PyField.str rs) (PyField.str cs) =>
    if (rs = "user" ∨ rs = "assistant") ∧ pyStripS cs ≠ "" then some ⟨rs, pyStripS cs⟩
    else none
  | _ => none

/-- `history_to_transcript` from `app.py`: normalize, then render one
`User:`/`Assistant:` line per kept turn, joined by single newlines. -/
def history_to_transcript (history_messages : List RawEntry) : String :=
  String.intercalate "\n"
    ((normalize_history history_messages).map
      (fun m => if m.role == "user" then "User: " ++ m.content else "Assistant: " ++ m.content))

/-- The message list built inside `persona_chat` (the spec's
`buildChatPrompt`): persona system message, optional document-context
system message with the extracted text truncated to 6000 characters,
the history turns, and the new user message. -/
def buildChatMsgs (user_message : String) (hist : List Turn) (file_text : String) : List Turn :=
  ⟨"system", SYSTEM_PROMPT⟩ ::
    ((if file_text == "" then []
      else [⟨"system", "Additional user context from uploaded resume/profile:\n" ++ pyTake 6000 file_text⟩])
      ++ (hist ++ [⟨"user", user_message⟩]))

/-- `persona_chat` from `app.py`, parameterized by the completion
gateway; also returns the list of requests it issued. -/
def persona_chat (gw : Gw) (user_message : String) (history_messages : List RawEntry)
    (u : Upload) : Except ProviderError String × List (List Turn) :=
  let messages := buildChatMsgs user_message (normalize_history history_messages) (file_to_text u)
  match gw messages with
  | Except.ok content => (Except.ok (pyStripS content), [messages])
  | Except.error e => (Except.error e, [messages])

/-- The message list built inside `generate_website` (the spec's
`buildWebsitePrompt`): website system message, then one user message
holding the transcript and the extracted text truncated to 8000
characters. -/
def buildWebsiteMsgs (history_messages : List RawEntry) (u : Upload) : List Turn :=
  let hist := normalize_history history_messages
  let convo_text := history_to_transcript (hist.map turnToRaw)
  let file_text := file_to_text u
  [⟨"system", WEBSITE_SYSTEM_PROMPT⟩,
   ⟨"user", "Chat transcript:\n" ++ convo_text ++ "\n\nResume/Profile text:\n" ++ pyTake 8000 file_text⟩]

/-- `generate_website` from `app.py`: build the website prompt, call the
gateway, and on success return the fixed output path together with the
trimmed HTML written there; also returns the list of issued requests. -/
def generate_website (gw : Gw) (history_messages : List RawEntry) (u : Upload) :
    Except ProviderError (String × String) × List (List Turn) :=
  let messages := buildWebsiteMsgs history_messages u
  match gw messages with
  | Except.ok content => (Except.ok (INDEX_HTML_PATH, pyStripS content), [messages])
  | Except.error e => (Except.error e, [messages])

/-- `handle_submit` from `app.py`: normalize the history, return it
untouched on an empty/whitespace message, otherwise obtain a reply via
`persona_chat` and append the user and assistant turns together; also
returns the list of issued gateway requests. -/
def handle_submit (gw : Gw) (user_message : String) (history_messages : List RawEntry)
    (u : Upload) : Except ProviderError (String × List Turn) × List (List Turn) :=
  let hist := normalize_history history_messages
  if pyStripS user_message == "" then (Except.ok ("", hist), [])
  else
    match persona_chat gw (pyStripS user_message) (hist.map turnToRaw) u with
    | (Except.ok reply, calls) =>
      (Except.ok ("", hist ++ [⟨"user", pyStripS user_message⟩, ⟨"assistant", reply⟩]), calls)
    | (Except.error e, calls) => (Except.error e, calls)

/-- A gateway that always answers `r`. -/
def gwConst (r : String) : Gw := fun _ => Except.ok r

/-- A gateway that always fails with `e`. -/
def gwFail (e : ProviderError) : Gw := fun _ => Except.error e

/-- The document-context marker text named by the spec. -/
def docCtxHeader : String := "Additional user context from uploaded resume/profile:"

/-- A prompt message is a document-context system message when its role
is `system` and its content contains the marker text. -/
def isDocCtxMsg (m : Turn) : Bool :=
  m.role == "system" && containsSub docCtxHeader.data m.content.data

/-! ### Helper lemmas about stripping -/

theorem dropWhile_dropWhile (p : Char → Bool) (l : List Char) :
    (l.dropWhile p).dropWhile p = l.dropWhile p := by
  induction l with
  | nil => rfl
  | cons c t ih =>
    by_cases hc : p c
    · simp [List.dropWhile_cons, hc, ih]
    · simp [List.dropWhile_cons, hc]

theorem dropWhile_fix_head (p : Char → Bool) (x : Char) (t : List Char)
    (h : List.dropWhile p (x :: t) = x :: t) : p x = false := by
  by_contra hb
  have hx : p x = true := by simpa using hb
  rw [List.dropWhile_cons, if_pos hx] at h
  have hlen := congrArg List.length h
  have hle : (List.dropWhile p t).length ≤ t.length := by
    have hsub : List.Sublist (List.dropWhile p t) t := List.dropWhile_sublist _
    exact hsub.length_le
  simp at hlen
  omega

theorem stripEnd_append (l : List Char) :
    l = stripEnd l ++ (l.reverse.takeWhile pyWs).reverse := by
  have h : l.reverse.takeWhile pyWs ++ l.reverse.dropWhile pyWs = l.reverse :=
    List.takeWhile_append_dropWhile pyWs l.reverse
  calc l = l.reverse.reverse := (List.reverse_reverse l).symm
    _ = (l.reverse.takeWhile pyWs ++ l.reverse.dropWhile pyWs).reverse := by rw [h]
    _ = stripEnd l ++ (l.reverse.takeWhile pyWs).reverse := by
        rw [List.reverse_append]; rfl

theorem dropWhile_stripEnd_of_fix (l : List Char) (h : l.dropWhile pyWs = l) :
    (stripEnd l).dropWhile pyWs = stripEnd l := by
  cases hse : stripEnd l with
  | nil => simp
  | cons c r =>
    have hpre := stripEnd_append l
    rw [hse] at hpre
    cases l with
    | nil => simp [stripEnd] at hse
    | cons x t =>
      have hx : x = c := by
        have : x :: t = c :: (r ++ (List.reverse (List.takeWhile pyWs (List.reverse (x :: t))))) := by
          simpa using hpre
        exact (List.cons.injEq _ _ _ _ ▸ this).1
      have hws : pyWs x = false := dropWhile_fix_head pyWs x t h
      rw [List.dropWhile_cons, if_neg (by rw [← hx]; simp [hws])]

theorem stripEnd_idem (l : List Char) : stripEnd (stripEnd l) = stripEnd l := by
  unfold stripEnd
  rw [List.reverse_reverse, dropWhile_dropWhile]

theorem pyStrip_idem (l : List Char) : pyStrip (pyStrip l) = pyStrip l := by
  unfold pyStrip
  rw [dropWhile_stripEnd_of_fix _ (dropWhile_dropWhile pyWs l), stripEnd_idem]

theorem pyStripS_idem (s : String) : pyStripS (pyStripS s) = pyStripS s := by
  unfold pyStripS
  exact congrArg String.mk (pyStrip_idem s.data)

/-! ### Helper lemmas about history normalization -/

theorem normalize_history_eq_filterMap (h : List RawEntry) :
    normalize_history h = h.filterMap keptTurn := by
  induction h with
  | nil => rfl
  | cons e rest ih =>
    cases e with
    | notDict => simpa [normalize_history, keptTurn, List.filterMap_cons] using ih
    | mk r c =>
      cases r with
      | nonStr => cases c <;> simpa [normalize_history, keptTurn, List.filterMap_cons] using ih
      | str rs =>
        cases c with
        | nonStr => simpa [normalize_history, keptTurn, List.filterMap_cons] using ih
        | str cs =>
          by_cases hcond : (rs = "user" ∨ rs = "assistant") ∧ pyStripS cs ≠ ""
          · have hb : ((rs == "user" || rs == "assistant") && (pyStripS cs != "")) = true := by
              simp only [Bool.and_eq_true, Bool.or_eq_true, beq_iff_eq, bne_iff_ne, ne_eq]
              exact ⟨hcond.1, hcond.2⟩
            simp [normalize_history, keptTurn, List.filterMap_cons, hb, hcond, ih]
          · have hb : ((rs == "user" || rs == "assistant") && (pyStripS cs != "")) = false := by
              rw [Bool.and_eq_false_iff]
              by_cases hr : rs = "user" ∨ rs = "assistant"
              · right
                have hceq : pyStripS cs = "" := by
                  by_contra hc
                  exact hcond ⟨hr, hc⟩
                simp [hceq]
              · left
                simp only [Bool.or_eq_false_iff, beq_eq_false_iff_ne, ne_eq]
                exact ⟨fun h1 => hr (Or.inl h1), fun h2 => hr (Or.inr h2)⟩
            simp [normalize_history, keptTurn, List.filterMap_cons, hb, hcond, ih]

theorem mem_normalize_valid (h : List RawEntry) (t : Turn)
    (ht : t ∈ normalize_history h) :
    (t.role = "user" ∨ t.role = "assistant") ∧ pyStripS t.content = t.content ∧
      t.content ≠ "" := by
  rw [normalize_history_eq_filterMap] at ht
  rcases List.mem_filterMap.mp ht with ⟨e, -, he⟩
  cases e with
  | notDict => simp [keptTurn] at he
  | mk r c =>
    cases r with
    | nonStr => simp [keptTurn] at he
    | str rs =>
      cases c with
      | nonStr => simp [keptTurn] at he
      | str cs =>
        by_cases hcond : (rs = "user" ∨ rs = "assistant") ∧ pyStripS cs ≠ ""
        · rw [keptTurn, if_pos hcond] at he
          cases he
          exact ⟨hcond.1, pyStripS_idem cs, hcond.2⟩
        · rw [keptTurn, if_neg hcond] at he
          cases he

theorem keptTurn_turnToRaw (t : Turn)
    (hrole : t.role = "user" ∨ t.role = "assistant")
    (hfix : pyStripS t.content = t.content) (hne : t.content ≠ "") :
    keptTurn (turnToRaw t) = some t := by
  have heq : keptTurn (turnToRaw t) =
      if (t.role = "user" ∨ t.role = "assistant") ∧ pyStripS t.content ≠ ""
      then some ⟨t.role, pyStripS t.content⟩ else none := rfl
  rw [heq, if_pos ⟨hrole, by rw [hfix]; exact hne⟩, hfix]

theorem filterMap_id_of {α : Type} (f : α → Option α) (l : List α)
    (hf : ∀ a ∈ l, f a = some a) : l.filterMap f = l := by
  induction l with
  | nil => rfl
  | cons a t ih =>
    rw [List.filterMap_cons, hf a (List.mem_cons_self a t),
      ih (fun b hb => hf b (List.mem_cons_of_mem a hb))]

theorem normalize_idem (h : List RawEntry) :
    normalize_history ((normalize_history h).map turnToRaw) = normalize_history h := by
  rw [normalize_history_eq_filterMap ((normalize_history h).map turnToRaw),
    List.filterMap_map]
  exact filterMap_id_of _ _ (fun t ht => by
    obtain ⟨hrole, hfix, hne⟩ := mem_normalize_valid h t ht
    exact keptTurn_turnToRaw t hrole hfix hne)

/-! ### Helper lemmas about newline collapsing -/

theorem collapseGo_replicate (m : Nat) : ∀ (n : Nat) (l : List Char),
    collapseGo n (List.replicate m '\n' ++ l) = collapseGo (n + m) l := by
  induction m with
  | zero => intro n l; simp
  | succ k ih =>
    intro n l
    rw [List.replicate_succ, List.cons_append]
    have h1 : collapseGo n ('\n' :: (List.replicate k '\n' ++ l)) =
        collapseGo (n + 1) (List.replicate k '\n' ++ l) := by
      simp [collapseGo]
    rw [h1, ih (n + 1) l]
    congr 1
    omega

theorem collapseGo_congr_min (l : List Char) : ∀ n n' : Nat,
    min n 2 = min n' 2 → collapseGo n l = collapseGo n' l := by
  induction l with
  | nil => intro n n' h; simp [collapseGo, h]
  | cons c cs ih =>
    intro n n' h
    by_cases hc : c = '\n'
    · subst hc
      simp only [collapseGo, beq_self_eq_true, if_true]
      exact ih (n + 1) (n' + 1) (by omega)
    · simp only [collapseGo, beq_iff_eq, hc, if_false, h]

theorem hasTripleNL_replicate (n : Nat) (l : List Char) (h3 : 3 ≤ n) :
    hasTripleNL (List.replicate n '\n' ++ l) = true := by
  obtain ⟨k, rfl⟩ : ∃ k, n = k + 3 := ⟨n - 3, by omega⟩
  have h1 : List.replicate (k + 3) '\n' ++ l =
      '\n' :: '\n' :: '\n' :: (List.replicate k '\n' ++ l) := by
    rw [show k + 3 = (k + 2) + 1 from rfl, List.replicate_succ,
      show k + 2 = (k + 1) + 1 from rfl, List.replicate_succ, List.replicate_succ]
    simp
  rw [h1]
  simp [hasTripleNL]

theorem hasTripleNL_cons_of (c : Char) (l : List Char) (h : hasTripleNL l = true) :
    hasTripleNL (c :: l) = true := by
  cases l with
  | nil => simp [hasTripleNL] at h
  | cons a l1 =>
    cases l1 with
    | nil => simp [hasTripleNL] at h
    | cons b l2 =>
      cases l2 with
      | nil => simp [hasTripleNL] at h
      | cons d t =>
        show ((c == '\n' && a == '\n' && b == '\n') ||
          hasTripleNL (a :: b :: d :: t)) = true
        rw [h, Bool.or_true]

theorem hasTripleNL_append_right (l1 l2 : List Char) (h : hasTripleNL l2 = true) :
    hasTripleNL (l1 ++ l2) = true := by
  induction l1 with
  | nil => simpa
  | cons c t ih => exact hasTripleNL_cons_of c _ ih

theorem collapseGo_id_of_no_triple : ∀ (l : List Char) (n : Nat),
    hasTripleNL (List.replicate n '\n' ++ l) = false →
    collapseGo n l = List.replicate n '\n' ++ l := by
  intro l
  induction l with
  | nil =>
    intro n h
    have hn : n ≤ 2 := by
      by_contra hgt
      rw [hasTripleNL_replicate n [] (by omega)] at h
      cases h
    simp [collapseGo, Nat.min_eq_left hn]
  | cons c cs ih =>
    intro n h
    by_cases hc : c = '\n'
    · subst hc
      have hrep : List.replicate n '\n' ++ '\n' :: cs =
          List.replicate (n + 1) '\n' ++ cs := by
        rw [List.replicate_succ' n '\n', List.append_assoc, List.singleton_append]
      rw [hrep] at h
      have h1 : collapseGo n ('\n' :: cs) = collapseGo (n + 1) cs := by
        simp [collapseGo]
      rw [h1, ih (n + 1) h, hrep]
    · have hn : n ≤ 2 := by
        by_contra hgt
        rw [hasTripleNL_replicate n (c :: cs) (by omega)] at h
        cases h
      have hcs : hasTripleNL cs = false := by
        by_contra hb
        have hb' : hasTripleNL cs = true := by simpa using hb
        have : hasTripleNL ((List.replicate n '\n' ++ [c]) ++ cs) = true :=
          hasTripleNL_append_right _ _ hb'
        rw [List.append_assoc, List.singleton_append] at this
        rw [this] at h
        cases h
      have h2 : collapseGo 0 cs = cs := by
        have := ih 0 (by simpa using hcs)
        simpa using this
      simp only [collapseGo, beq_iff_eq, hc, if_false, h2, Nat.min_eq_left hn]

theorem collapseGo_collapse_run : ∀ (a : List Char) (p : Nat) (b : List Char) (n : Nat),
    3 ≤ n →
    collapseGo p (a ++ List.replicate n '\n' ++ b) =
      collapseGo p (a ++ List.replicate 2 '\n' ++ b) := by
  intro a
  induction a with
  | nil =>
    intro p b n h3
    simp only [List.nil_append]
    rw [collapseGo_replicate, collapseGo_replicate]
    exact collapseGo_congr_min b _ _ (by omega)
  | cons c t ih =>
    intro p b n h3
    by_cases hc : c = '\n'
    · subst hc
      simp only [List.cons_append]
      have h1 : ∀ x, collapseGo p ('\n' :: x) = collapseGo (p + 1) x := by
        intro x; simp [collapseGo]
      rw [h1, h1]
      exact ih (p + 1) b n h3
    · simp only [List.cons_append, collapseGo, beq_iff_eq, hc, if_false]
      exact congrArg (fun x => List.replicate (min p 2) '\n' ++ c :: x) (ih 0 b n h3)

/-! ### Helper lemmas about substring search -/

theorem leadsWith_append_self (n : List Char) : ∀ rest : List Char,
    leadsWith n (n ++ rest) = true := by
  induction n with
  | nil => intro rest; rfl
  | cons c t ih =>
    intro rest
    show (c == c && leadsWith t (t ++ rest)) = true
    rw [ih rest, beq_self_eq_true, Bool.and_true]

theorem containsSub_append_self (n rest : List Char) :
    containsSub n (n ++ rest) = true := by
  cases hnr : n ++ rest with
  | nil => rw [containsSub]; simp [List.append_eq_nil.mp hnr]
  | cons c t =>
    rw [containsSub, ← hnr, leadsWith_append_self n rest, Bool.true_or]

/-! ### Unfolding lemmas for the chat turn handler -/

theorem handle_submit_empty (gw : Gw) (um : String) (h : List RawEntry) (u : Upload)
    (he : pyStripS um = "") :
    handle_submit gw um h u = (Except.ok ("", normalize_history h), []) := by
  unfold handle_submit
  rw [if_pos (by simp [he])]

theorem handle_submit_ok (gw : Gw) (um : String) (h : List RawEntry) (u : Upload)
    (r : String) (hne : pyStripS um ≠ "")
    (hgw : gw (buildChatMsgs (pyStripS um) (normalize_history h) (file_to_text u)) =
      Except.ok r) :
    handle_submit gw um h u =
      (Except.ok ("", normalize_history h ++
        [⟨"user", pyStripS um⟩, ⟨"assistant", pyStripS r⟩]),
       [buildChatMsgs (pyStripS um) (normalize_history h) (file_to_text u)]) := by
  unfold handle_submit persona_chat
  rw [if_neg (by simp [hne])]
  rw [normalize_idem h]
  simp only [hgw]

theorem handle_submit_error (gw : Gw) (um : String) (h : List RawEntry) (u : Upload)
    (e : ProviderError) (hne : pyStripS um ≠ "")
    (hgw : gw (buildChatMsgs (pyStripS um) (normalize_history h) (file_to_text u)) =
      Except.error e) :
    handle_submit gw um h u =
      (Except.error e,
       [buildChatMsgs (pyStripS um) (normalize_history h) (file_to_text u)]) := by
  unfold handle_submit persona_chat
  rw [if_neg (by simp [hne])]
  rw [normalize_idem h]
  simp only [hgw]

theorem pyTake_length_le (n : Nat) (s : String) : (pyTake n s).length ≤ n := by
  have h : (pyTake n s).length = (s.data.take n).length := rfl
  rw [h, List.length_take]
  exact min_le_left _ _

/-! ### Claim theorems -/

/-- C1: for every raw history input, `normalize_history` keeps exactly the
entries that are dicts with role `user` or `assistant` and string content
non-empty after trimming (expressed as `filterMap keptTurn`, which keeps
the surviving turns in input order and omits every dropped entry), and
every turn of the output has a valid role and content non-empty after
trimming. -/
theorem C1_normalize_keeps_valid_turns_in_order : ∀ h : List RawEntry,
    normalize_history h = h.filterMap keptTurn ∧
    ∀ t ∈ normalize_history h,
      (t.role = "user" ∨ t.role = "assistant") ∧ pyStripS t.content ≠ "" := by
  intro h
  refine ⟨normalize_history_eq_filterMap h, fun t ht => ?_⟩
  obtain ⟨hrole, hfix, hne⟩ := mem_normalize_valid h t ht
  exact ⟨hrole, by rw [hfix]; exact hne⟩

/-- Witness for C1 at a concrete history with one valid and one malformed
entry. -/
theorem C1_normalize_keeps_valid_turns_in_order_witness :
    (normalize_history [RawEntry.mk (PyField.str "user") (PyField.str " hi "),
        RawEntry.notDict] =
      [RawEntry.mk (PyField.str "user") (PyField.str " hi "),
        RawEntry.notDict].filterMap keptTurn) ∧
    (((⟨"user", "hi"⟩ : Turn).role = "user" ∨
        (⟨"user", "hi"⟩ : Turn).role = "assistant") ∧
      pyStripS (⟨"user", "hi"⟩ : Turn).content ≠ "") :=
  ⟨(C1_normalize_keeps_valid_turns_in_order
      [RawEntry.mk (PyField.str "user") (PyField.str " hi "), RawEntry.notDict]).1,
   (C1_normalize_keeps_valid_turns_in_order
      [RawEntry.mk (PyField.str "user") (PyField.str " hi "), RawEntry.notDict]).2
      ⟨"user", "hi"⟩ (by decide)⟩

/-- C2 counterexample: at the whitespace-only message `""` with the
history `[notDict]` (a malformed entry), `handle_submit` returns the
normalized history `[]`, which is *not* the input history unchanged, so
the claim as stated is false (the zero-call part does hold). -/
theorem C2_cex_history_renormalized_not_unchanged :
    handle_submit (gwConst "Hi there") "" [RawEntry.notDict] noUpload =
      (Except.ok ("", []), []) ∧
    ([] : List Turn).map turnToRaw ≠ [RawEntry.notDict] := by
  exact ⟨rfl, by decide⟩

/-- C2 amended: with an empty or whitespace-only user message,
`handle_submit` issues zero gateway calls and returns `""` together with
the *normalized* input history; when the input history is already
normalized it is returned element-for-element unchanged. -/
theorem C2_empty_message_is_noop : ∀ (gw : Gw) (um : String) (h : List RawEntry)
    (u : Upload), pyStripS um = "" →
    handle_submit gw um h u = (Except.ok ("", normalize_history h), []) ∧
    handle_submit gw um ((normalize_history h).map turnToRaw) u =
      (Except.ok ("", normalize_history h), []) := by
  intro gw um h u he
  refine ⟨handle_submit_empty gw um h u he, ?_⟩
  rw [handle_submit_empty gw um _ u he, normalize_idem]

/-- Witness for the amended C2 at the message `"   "`. -/
theorem C2_empty_message_is_noop_witness :
    handle_submit (gwConst "Hi there") "   " [RawEntry.notDict] noUpload =
      (Except.ok ("", []), []) ∧
    handle_submit (gwConst "Hi there") "   " (([] : List Turn).map turnToRaw) noUpload =
      (Except.ok ("", []), []) :=
  C2_empty_message_is_noop (gwConst "Hi there") "   " [RawEntry.notDict] noUpload (by decide)

/-- C3: if the gateway fails, `handle_submit` propagates exactly that
error after exactly one gateway call (no retry) and commits no partial
history; with a succeeding gateway, the user turn and assistant turn are
appended together in one step after the reply. -/
theorem C3_failure_propagates_without_partial_commit :
    ∀ (gw : Gw) (um : String) (h : List RawEntry) (u : Upload) (e : ProviderError),
    pyStripS um ≠ "" → (∀ m, gw m = Except.error e) →
    (handle_submit gw um h u).1 = Except.error e ∧
    (handle_submit gw um h u).2.length = 1 ∧
    ∀ (gw' : Gw) (r : String), (∀ m, gw' m = Except.ok r) →
      handle_submit gw' um h u =
        (Except.ok ("", normalize_history h ++
          [⟨"user", pyStripS um⟩, ⟨"assistant", pyStripS r⟩]),
         [buildChatMsgs (pyStripS um) (normalize_history h) (file_to_text u)]) := by
  intro gw um h u e hne hfail
  rw [handle_submit_error gw um h u e hne (hfail _)]
  refine ⟨rfl, rfl, ?_⟩
  intro gw' r hok
  exact handle_submit_ok gw' um h u r hne (hok _)

/-- Witness for C3 at a concrete always-failing gateway. -/
theorem C3_failure_propagates_without_partial_commit_witness :
    (handle_submit (gwFail ⟨"rate limit"⟩) "Hello" [] noUpload).1 =
      Except.error ⟨"rate limit"⟩ ∧
    (handle_submit (gwFail ⟨"rate limit"⟩) "Hello" [] noUpload).2.length = 1 :=
  ⟨(C3_failure_propagates_without_partial_commit (gwFail ⟨"rate limit"⟩) "Hello" []
      noUpload ⟨"rate limit"⟩ (by decide) (fun _ => rfl)).1,
   (C3_failure_propagates_without_partial_commit (gwFail ⟨"rate limit"⟩) "Hello" []
      noUpload ⟨"rate limit"⟩ (by decide) (fun _ => rfl)).2.1⟩

/-- C4: the document text included in the chat prompt is the extracted
text truncated to at most 6000 characters, and the document text
included in the website prompt is truncated to at most 8000 characters,
whatever the length of the extracted text. -/
theorem C4_prompt_document_truncation_bounds :
    ∀ (um ft : String) (hist : List Turn) (h : List RawEntry) (u : Upload),
    (ft ≠ "" → ∃ d : String, d.length ≤ 6000 ∧
      buildChatMsgs um hist ft =
        ⟨"system", SYSTEM_PROMPT⟩ ::
          ⟨"system", "Additional user context from uploaded resume/profile:\n" ++ d⟩ ::
          (hist ++ [⟨"user", um⟩])) ∧
    (∃ d : String, d.length ≤ 8000 ∧
      buildWebsiteMsgs h u =
        [⟨"system", WEBSITE_SYSTEM_PROMPT⟩,
         ⟨"user", "Chat transcript:\n" ++
           history_to_transcript ((normalize_history h).map turnToRaw) ++
           "\n\nResume/Profile text:\n" ++ d⟩]) := by
  intro um ft hist h u
  constructor
  · intro hne
    refine ⟨pyTake 6000 ft, pyTake_length_le 6000 ft, ?_⟩
    unfold buildChatMsgs
    rw [if_neg (by simp [hne])]
    rfl
  · exact ⟨pyTake 8000 (file_to_text u), pyTake_length_le 8000 (file_to_text u), rfl⟩

/-- Witness for C4 at a concrete long document text. -/
theorem C4_prompt_document_truncation_bounds_witness :
    (∃ d : String, d.length ≤ 6000 ∧
      buildChatMsgs "Hi" [] "doc" =
        ⟨"system", SYSTEM_PROMPT⟩ ::
          ⟨"system", "Additional user context from uploaded resume/profile:\n" ++ d⟩ ::
          (([] : List Turn) ++ [⟨"user", "Hi"⟩])) ∧
    (∃ d : String, d.length ≤ 8000 ∧
      buildWebsiteMsgs [] noUpload =
        [⟨"system", WEBSITE_SYSTEM_PROMPT⟩,
         ⟨"user", "Chat transcript:\n" ++
           history_to_transcript ((normalize_history []).map turnToRaw) ++
           "\n\nResume/Profile text:\n" ++ d⟩]) :=
  ⟨(C4_prompt_document_truncation_bounds "Hi" "doc" [] [] noUpload).1 (by decide),
   (C4_prompt_document_truncation_bounds "Hi" "doc" [] [] noUpload).2⟩

/-- C5: with a non-empty document text the chat prompt contains exactly
one system message whose content contains the marker
`Additional user context from uploaded resume/profile:`, and it sits
immediately after the persona system message; with empty document text
no such message is present. -/
theorem C5_doc_context_message_exactly_when_doc_present :
    ∀ (um ft : String) (h : List RawEntry),
    (ft ≠ "" →
      buildChatMsgs um (normalize_history h) ft =
        ⟨"system", SYSTEM_PROMPT⟩ ::
          ⟨"system", docCtxHeader ++ "\n" ++ pyTake 6000 ft⟩ ::
          (normalize_history h ++ [⟨"user", um⟩]) ∧
      ((buildChatMsgs um (normalize_history h) ft).filter isDocCtxMsg).length = 1) ∧
    (ft = "" →
      buildChatMsgs um (normalize_history h) ft =
        ⟨"system", SYSTEM_PROMPT⟩ :: (normalize_history h ++ [⟨"user", um⟩]) ∧
      ((buildChatMsgs um (normalize_history h) ft).filter isDocCtxMsg).length = 0) := by
  intro um ft h
  have hsys : isDocCtxMsg ⟨"system", SYSTEM_PROMPT⟩ = false := by decide
  have huser : isDocCtxMsg ⟨"user", um⟩ = false := by simp [isDocCtxMsg]
  have hhist : (normalize_history h).filter isDocCtxMsg = [] := by
    rw [List.filter_eq_nil_iff]
    intro t ht
    obtain ⟨hrole, -, -⟩ := mem_normalize_valid h t ht
    rcases hrole with h1 | h1 <;> simp [isDocCtxMsg, h1]
  have hhdr : "Additional user context from uploaded resume/profile:\n" =
      docCtxHeader ++ "\n" := by decide
  constructor
  · intro hne
    have hdocmsg : isDocCtxMsg
        ⟨"system", docCtxHeader ++ "\n" ++ pyTake 6000 ft⟩ = true := by
      unfold isDocCtxMsg
      rw [Bool.and_eq_true]
      refine ⟨by simp, ?_⟩
      have hd : (docCtxHeader ++ "\n" ++ pyTake 6000 ft).data =
          docCtxHeader.data ++ ("\n".data ++ (pyTake 6000 ft).data) := by
        rw [String.data_append, String.data_append, List.append_assoc]
      rw [hd]
      exact containsSub_append_self _ _
    have hshape : buildChatMsgs um (normalize_history h) ft =
        ⟨"system", SYSTEM_PROMPT⟩ ::
          ⟨"system", docCtxHeader ++ "\n" ++ pyTake 6000 ft⟩ ::
          (normalize_history h ++ [⟨"user", um⟩]) := by
      unfold buildChatMsgs
      rw [if_neg (by simp [hne]), hhdr]
      rfl
    refine ⟨hshape, ?_⟩
    rw [hshape]
    rw [List.filter_cons, List.filter_cons]
    rw [hsys, hdocmsg]
    simp only [if_false, if_true, List.filter_append, hhist, List.filter_cons,
      huser, List.filter_nil]
    rfl
  · intro hemp
    have hshape : buildChatMsgs um (normalize_history h) ft =
        ⟨"system", SYSTEM_PROMPT⟩ :: (normalize_history h ++ [⟨"user", um⟩]) := by
      unfold buildChatMsgs
      rw [if_pos (by simp [hemp])]
      rfl
    refine ⟨hshape, ?_⟩
    rw [hshape, List.filter_cons, hsys]
    simp only [if_false, List.filter_append, hhist, List.filter_cons, huser,
      List.filter_nil]
    rfl

/-- Witness for C5 at a concrete non-empty and a concrete empty document
text. -/
theorem C5_doc_context_message_exactly_when_doc_present_witness :
    ((buildChatMsgs "Hi" (normalize_history []) "doc").filter isDocCtxMsg).length = 1 ∧
    ((buildChatMsgs "Hi" (normalize_history []) "").filter isDocCtxMsg).length = 0 :=
  ⟨((C5_doc_context_message_exactly_when_doc_present "Hi" "doc" []).1 (by decide)).2,
   ((C5_doc_context_message_exactly_when_doc_present "Hi" "" []).2 rfl).2⟩

/-- C6: `file_to_text` is a total function (extraction never propagates
an error) and returns the empty string when the path is empty, when the
extension is not one of `.txt`, `.md`, `.pdf`, `.docx`, or when every
attempted read/parse raises. -/
theorem C6_file_to_text_degrades_to_empty : ∀ u : Upload,
    (u.path = "" → file_to_text u = "") ∧
    (extOf u.path ∉ ([".txt", ".md", ".pdf", ".docx"] : List String) →
      file_to_text u = "") ∧
    ((u.fs.readText = Except.error () ∧ u.fs.readDocx = Except.error () ∧
      u.fs.readPdf = Except.error ()) → file_to_text u = "") := by
  intro u
  obtain ⟨p, rt, rd, rp⟩ := u
  refine ⟨?_, ?_, ?_⟩
  · intro hp
    simp only at hp
    simp [file_to_text, hp]
  · intro hext
    simp only [List.mem_cons, List.mem_singleton, not_or] at hext
    obtain ⟨t1, t2, t3, t4⟩ := hext
    have b1 : (extOf p == ".txt") = false := beq_eq_false_iff_ne.mpr t1
    have b2 : (extOf p == ".md") = false := beq_eq_false_iff_ne.mpr t2
    have b3 : (extOf p == ".pdf") = false := beq_eq_false_iff_ne.mpr t3
    have b4 : (extOf p == ".docx") = false := beq_eq_false_iff_ne.mpr t4.1
    simp [file_to_text, b1, b2, b3, b4]
  · rintro ⟨h1, h2, h3⟩
    simp only at h1 h2 h3
    subst h1 h2 h3
    simp [file_to_text]

/-- Witness for C6 at an unsupported `.csv` upload whose reads would all
succeed. -/
theorem C6_file_to_text_degrades_to_empty_witness :
    file_to_text ⟨"r.csv", ⟨Except.ok "x", Except.ok ["y"], Except.ok [some "z"]⟩⟩ = "" :=
  (C6_file_to_text_degrades_to_empty
    ⟨"r.csv", ⟨Except.ok "x", Except.ok ["y"], Except.ok [some "z"]⟩⟩).2.1 (by decide)

/-- C7 counterexample: `clean_text` strips surrounding whitespace before
collapsing, so an input whose run of 5 consecutive newlines sits at the
end loses that run entirely — the output contains no two consecutive
newlines at all, not "exactly 2 at that position". -/
theorem C7_cex_boundary_run_removed_by_strip :
    clean_text "a\n\n\n\n\n" = "a" ∧
    containsSub ['\n', '\n'] (clean_text "a\n\n\n\n\n").data = false :=
  ⟨by decide, by decide⟩

/-- C7 amended: `clean_text` first trims surrounding whitespace (a
leading/trailing newline run is removed by the trim, not collapsed);
on the trimmed text the collapsing pass replaces every run of 3 or more
consecutive newlines by exactly 2 and leaves text without any 3-newline
run unchanged; in particular an interior run of 5 newlines yields
exactly 2. -/
theorem C7_clean_text_collapses_runs_after_trim :
    (∀ s : String, clean_text s = ⟨collapseGo 0 (pyStrip s.data)⟩) ∧
    (∀ (a b : List Char) (n : Nat), 3 ≤ n →
      collapseGo 0 (a ++ List.replicate n '\n' ++ b) =
        collapseGo 0 (a ++ List.replicate 2 '\n' ++ b)) ∧
    (∀ l : List Char, hasTripleNL l = false → collapseGo 0 l = l) ∧
    clean_text "a\n\n\n\n\nb" = "a\n\nb" := by
  refine ⟨fun s => rfl, fun a b n h3 => collapseGo_collapse_run a 0 b n h3, ?_, by decide⟩
  intro l hl
  have h0 := collapseGo_id_of_no_triple l 0 (by simpa using hl)
  simpa using h0

/-- Witness for the amended C7 at an interior run of 5 newlines and a
text with no 3-newline run. -/
theorem C7_clean_text_collapses_runs_after_trim_witness :
    collapseGo 0 (['a'] ++ List.replicate 5 '\n' ++ ['b']) =
      collapseGo 0 (['a'] ++ List.replicate 2 '\n' ++ ['b']) ∧
    collapseGo 0 ['a', '\n', 'b'] = ['a', '\n', 'b'] :=
  ⟨C7_clean_text_collapses_runs_after_trim.2.1 ['a'] ['b'] 5 (by decide),
   C7_clean_text_collapses_runs_after_trim.2.2.1 ['a', '\n', 'b'] (by decide)⟩

/-- C8 counterexample: a successful completion whose reply is
whitespace-only is stripped to the empty string and appended as the
assistant turn, so the returned history contains a turn with empty
content, violating the stated Turn invariant. -/
theorem C8_cex_blank_reply_gives_empty_assistant_turn :
    (handle_submit (gwConst "  ") "Hello" [] noUpload).1 =
      Except.ok ("", [⟨"user", "Hello"⟩, ⟨"assistant", ""⟩]) ∧
    ¬ ((⟨"assistant", ""⟩ : Turn).content ≠ "") :=
  ⟨rfl, by decide⟩

/-- C8 amended: provided every successful gateway reply is non-empty
after trimming, every turn of the history returned by `handle_submit`
has role `user` or `assistant` and trimmed, non-empty content (hence the
assistant turn created after a successful completion has non-empty
trimmed content). -/
theorem C8_turn_invariant_given_nonblank_reply :
    ∀ (gw : Gw) (um : String) (h : List RawEntry) (u : Upload),
    (∀ m r, gw m = Except.ok r → pyStripS r ≠ "") →
    ∀ s hist, (handle_submit gw um h u).1 = Except.ok (s, hist) →
    ∀ t ∈ hist, (t.role = "user" ∨ t.role = "assistant") ∧
      pyStripS t.content = t.content ∧ t.content ≠ "" := by
  intro gw um h u hgw s hist hres t ht
  by_cases he : pyStripS um = ""
  · rw [handle_submit_empty gw um h u he] at hres
    simp only [Except.ok.injEq, Prod.mk.injEq] at hres
    obtain ⟨-, hh⟩ := hres
    rw [← hh] at ht
    exact mem_normalize_valid h t ht
  · cases hcall : gw (buildChatMsgs (pyStripS um) (normalize_history h) (file_to_text u)) with
    | error e =>
      rw [handle_submit_error gw um h u e he hcall] at hres
      simp at hres
    | ok r =>
      rw [handle_submit_ok gw um h u r he hcall] at hres
      simp only [Except.ok.injEq, Prod.mk.injEq] at hres
      obtain ⟨-, hh⟩ := hres
      rw [← hh] at ht
      rcases List.mem_append.mp ht with hmem | hmem
      · exact mem_normalize_valid h t hmem
      · rcases List.mem_cons.mp hmem with hu1 | hmem2
        · subst hu1
          exact ⟨Or.inl rfl, pyStripS_idem um, he⟩
        · rcases List.mem_singleton.mp hmem2 with rfl
          exact ⟨Or.inr rfl, pyStripS_idem r, hgw _ r hcall⟩

/-- Witness for the amended C8 at a concrete succeeding gateway. -/
theorem C8_turn_invariant_given_nonblank_reply_witness :
    ((⟨"user", "Hello"⟩ : Turn).role = "user" ∨
      (⟨"user", "Hello"⟩ : Turn).role = "assistant") ∧
    pyStripS (⟨"user", "Hello"⟩ : Turn).content = (⟨"user", "Hello"⟩ : Turn).content ∧
    (⟨"user", "Hello"⟩ : Turn).content ≠ "" :=
  C8_turn_invariant_given_nonblank_reply (gwConst "Hi there") "Hello" [] noUpload
    (fun _ r hr => by
      have hr' : "Hi there" = r := Except.ok.inj hr
      rw [← hr']
      decide)
    "" [⟨"user", "Hello"⟩, ⟨"assistant", "Hi there"⟩] rfl
    ⟨"user", "Hello"⟩ (by decide)

/-- C9: the handler is embedded as a pure function of the history value
(faithful to the source, whose `normalize_history` allocates a fresh
list and whose appends only touch that fresh list, leaving the caller's
sequence untouched), and the conversation handed back is a newly
constructed sequence: the normalized input on the empty-message path,
and the normalized input with exactly the user and assistant turns
appended on the success path. -/
theorem C9_handler_returns_fresh_sequence :
    ∀ (gw : Gw) (um : String) (h : List RawEntry) (u : Upload),
    (pyStripS um = "" →
      (handle_submit gw um h u).1 = Except.ok ("", normalize_history h)) ∧
    (∀ s hist, (handle_submit gw um h u).1 = Except.ok (s, hist) →
      hist = normalize_history h ∨
      ∃ r : String, hist = normalize_history h ++
        [⟨"user", pyStripS um⟩, ⟨"assistant", pyStripS r⟩]) := by
  intro gw um h u
  constructor
  · intro he
    rw [handle_submit_empty gw um h u he]
  · intro s hist hres
    by_cases he : pyStripS um = ""
    · rw [handle_submit_empty gw um h u he] at hres
      simp only [Except.ok.injEq, Prod.mk.injEq] at hres
      exact Or.inl hres.2.symm
    · cases hcall : gw (buildChatMsgs (pyStripS um) (normalize_history h) (file_to_text u)) with
      | error e =>
        rw [handle_submit_error gw um h u e he hcall] at hres
        simp at hres
      | ok r =>
        rw [handle_submit_ok gw um h u r he hcall] at hres
        simp only [Except.ok.injEq, Prod.mk.injEq] at hres
        exact Or.inr ⟨r, hres.2.symm⟩

/-- Witness for C9 at a whitespace-only message. -/
theorem C9_handler_returns_fresh_sequence_witness :
    (handle_submit (gwConst "x") " " [] noUpload).1 =
      Except.ok ("", normalize_history []) :=
  (C9_handler_returns_fresh_sequence (gwConst "x") " " [] noUpload).1 (by decide)

/-- C10: the transcript formatter normalizes internally — rendering the
normalized history yields the same transcript as rendering the raw
history (so malformed entries never contribute a line) — and the
transcript is exactly one `User:`/`Assistant:` line per kept turn,
joined by single newlines in order. -/
theorem C10_transcript_normalizes_internally : ∀ h : List RawEntry,
    history_to_transcript ((normalize_history h).map turnToRaw) =
      history_to_transcript h ∧
    history_to_transcript h =
      String.intercalate "\n" ((normalize_history h).map
        (fun m => if m.role == "user" then "User: " ++ m.content
          else "Assistant: " ++ m.content)) := by
  intro h
  refine ⟨?_, rfl⟩
  unfold history_to_transcript
  rw [normalize_idem]

end PersonaAI
